import Mathlib

/-!
Verification of the FF_LED library (single-LED effect controller with
fixed / blink / pulse modes), shallowly embedded from `FF_LED.cpp` and
`FF_LED.h`.

Machine integers are modelled as `Nat` (reduced modulo `2^8` for `uint8_t`
and modulo `2^32` for `unsigned long` at the points where C truncation
happens); the signed `int16_t` intermediate of the pulse computation is
modelled as `Int`.  Hardware effects (`digitalWrite` / `analogWrite`) are
reified as values of an `HWWrite` type, and the millisecond clock is an
explicit `now` parameter threaded to every operation.
-/

namespace FFLED

/-- Modulus of the 32-bit millisecond clock (`unsigned long`). -/
def M32 : Nat := 4294967296

/-- The sentinel delay from `FF_LED.h`: `#define FF_LED_WAIT_FOR_EVER (4294967295)`. -/
def FF_LED_WAIT_FOR_EVER : Nat := 4294967295

/-- LED mode — embeds `enum ledModedType {fixed, blink, pulse}`. -/
inductive LedMode
  | fixed
  | blink
  | pulse
deriving DecidableEq

/-- The private state of one `FF_LED` channel, field for field from `FF_LED.h`. -/
structure LedState where
  ledPin : Nat
  ledReverted : Bool
  ledBlinksNeeded : Nat
  ledBlinksDone : Nat
  ledMinLevel : Nat
  ledMaxLevel : Nat
  ledLevel : Nat
  ledIncrease : Bool
  ledPulseIncrement : Int
  ledMode : LedMode
  ledOnDelay : Nat
  ledOffDelay : Nat
  ledWaitDelay : Nat
  ledDelay : Nat
  ledLastTimeChanged : Nat
deriving DecidableEq

/-- A reified hardware write: `digitalWrite(pin, val)` or `analogWrite(pin, val)`. -/
inductive HWWrite
  | digitalWrite (pin val : Nat)
  | analogWrite (pin val : Nat)
deriving DecidableEq

/-- Unsigned 32-bit subtraction `a - b`, as performed by
`millis() - ledLastTimeChanged` on `unsigned long` values. -/
def u32sub (a b : Nat) : Nat := (a % M32 + (M32 - b % M32)) % M32

/-- Embeds the constructor `FF_LED::FF_LED(_ledPin, _isReverted, _initialLevel)`;
the remaining fields carry their in-class initialisers from `FF_LED.h`. -/
def mkLed (pin : Nat) (isReverted : Bool) (initialLevel : Nat) : LedState :=
  { ledPin := pin % 256
    ledReverted := isReverted
    ledBlinksNeeded := 0
    ledBlinksDone := 0
    ledMinLevel := 0
    ledMaxLevel := 255
    ledLevel := initialLevel % 256
    ledIncrease := false
    ledPulseIncrement := 0
    ledMode := LedMode.fixed
    ledOnDelay := 0
    ledOffDelay := 0
    ledWaitDelay := 0
    ledDelay := 0
    ledLastTimeChanged := 0 }

/-- Embeds `FF_LED::setLed(_level, _delay)`: records level, delay and the
current time, and performs one hardware write.  `_level` and `_delay` are
passed by the callers already truncated to their C types. -/
def setLed (s : LedState) (lvl d now : Nat) : LedState × HWWrite :=
  let s' := { s with ledLevel := lvl, ledDelay := d, ledLastTimeChanged := now % M32 }
  let w :=
    if lvl = 0 then
      HWWrite.digitalWrite s.ledPin (if s.ledReverted then s.ledMaxLevel else s.ledMinLevel)
    else if lvl = 255 then
      HWWrite.digitalWrite s.ledPin (if s.ledReverted then s.ledMinLevel else s.ledMaxLevel)
    else
      HWWrite.analogWrite s.ledPin (if s.ledReverted then 255 - lvl else lvl)
  (s', w)

/-- Embeds `FF_LED::setBlink`.  The `uint8_t` parameters are truncated mod 256
and the `unsigned long` ones mod `2^32`, as the C calling convention does. -/
def setBlink (s : LedState) (blinkCount onTime offTime waitTime minLevel maxLevel now : Nat) :
    LedState × HWWrite :=
  let s := { s with
    ledBlinksNeeded := blinkCount % 256
    ledOnDelay := onTime % M32
    ledOffDelay := offTime % M32
    ledWaitDelay := waitTime % M32
    ledMinLevel := minLevel % 256
    ledMaxLevel := maxLevel % 256
    ledBlinksDone := 0
    ledMode := LedMode.blink }
  if s.ledBlinksNeeded ≠ 0 then
    setLed s s.ledMaxLevel s.ledOnDelay now
  else
    setLed s s.ledMinLevel s.ledWaitDelay now

/-- Embeds `FF_LED::setFixed(_level)`. -/
def setFixed (s : LedState) (lvl now : Nat) : LedState × HWWrite :=
  let s := { s with ledLevel := lvl % 256, ledMode := LedMode.fixed }
  setLed s s.ledLevel FF_LED_WAIT_FOR_EVER now

/-- Embeds `FF_LED::setPulse`. -/
def setPulse (s : LedState) (increase : Bool)
    (upTime downTime waitTime minLevel maxLevel now : Nat) : LedState × HWWrite :=
  let s := { s with
    ledIncrease := increase
    ledMinLevel := minLevel % 256
    ledMaxLevel := maxLevel % 256
    ledOnDelay := upTime % M32
    ledOffDelay := downTime % M32
    ledWaitDelay := waitTime % M32
    ledMode := LedMode.pulse }
  let s :=
    if increase then
      { s with ledPulseIncrement := 1, ledLevel := s.ledMinLevel, ledDelay := s.ledOnDelay }
    else
      { s with ledPulseIncrement := -1, ledLevel := s.ledMaxLevel, ledDelay := s.ledOffDelay }
  setLed s s.ledLevel s.ledDelay now

/-- Embeds `FF_LED::begin()` (the `pinMode` call has no state effect and is
not modelled). -/
def begin (s : LedState) (now : Nat) : LedState × HWWrite :=
  setLed s s.ledLevel FF_LED_WAIT_FOR_EVER now

/-- Embeds `FF_LED::loop()` polled at time `now` (the value of `millis()`).
Returns the new state and the hardware write, if any. -/
def loop (s : LedState) (now : Nat) : LedState × Option HWWrite :=
  if u32sub now s.ledLastTimeChanged > s.ledDelay then
    if s.ledMode = LedMode.blink then
      if s.ledLevel = s.ledMaxLevel then
        let s := { s with ledBlinksDone := (s.ledBlinksDone + 1) % 256 }
        let p := setLed s s.ledMinLevel s.ledOffDelay now
        (p.1, some p.2)
      else if s.ledBlinksDone ≥ s.ledBlinksNeeded then
        let s := { s with ledBlinksDone := 0 }
        let p := setLed s s.ledMinLevel s.ledWaitDelay now
        (p.1, some p.2)
      else
        let p := setLed s s.ledMaxLevel s.ledOnDelay now
        (p.1, some p.2)
    else if s.ledMode = LedMode.pulse then
      let ledNewLevel : Int := (s.ledLevel : Int) + s.ledPulseIncrement
      if s.ledPulseIncrement > 0 then
        if ledNewLevel > (s.ledMaxLevel : Int) then
          let s := { s with ledPulseIncrement := -1 }
          if s.ledIncrease then
            let p := setLed s s.ledMaxLevel s.ledOffDelay now
            (p.1, some p.2)
          else
            let p := setLed s s.ledMaxLevel s.ledWaitDelay now
            (p.1, some p.2)
        else
          let p := setLed s ((ledNewLevel % 256).toNat) s.ledOnDelay now
          (p.1, some p.2)
      else
        if ledNewLevel < (s.ledMinLevel : Int) then
          let s := { s with ledPulseIncrement := 1 }
          if !s.ledIncrease then
            let p := setLed s s.ledMinLevel s.ledOnDelay now
            (p.1, some p.2)
          else
            let p := setLed s s.ledMinLevel s.ledWaitDelay now
            (p.1, some p.2)
        else
          let p := setLed s ((ledNewLevel % 256).toNat) s.ledOffDelay now
          (p.1, some p.2)
    else
      (s, none)
  else
    (s, none)

/-- The earliest poll time at which the currently armed delay has expired
(assuming the armed delay is below the wrap-around sentinel). -/
def dueTime (s : LedState) : Nat := (s.ledLastTimeChanged + s.ledDelay + 1) % M32

/-- One ideal polling step: poll `loop()` exactly when the armed delay expires. -/
def fireState (s : LedState) : LedState := (loop s (dueTime s)).1

/-- The state after `n` ideal polling steps. -/
def ledTrace (s : LedState) (n : Nat) : LedState := fireState^[n] s

/-- The sequence of `(level, delay)` pairs committed over the first `m` ideal
polling steps (the pair at index 0 is the state's current commitment). -/
def commitList (s : LedState) (m : Nat) : List (Nat × Nat) :=
  (List.range m).map (fun i => ((ledTrace s i).ledLevel, (ledTrace s i).ledDelay))

theorem loop_not_due (s : LedState) (now : Nat)
    (h : ¬ u32sub now s.ledLastTimeChanged > s.ledDelay) :
    loop s now = (s, none) := by
  rw [loop, if_neg h]

theorem loop_blink_on_state (s : LedState) (now : Nat)
    (hdue : u32sub now s.ledLastTimeChanged > s.ledDelay)
    (hm : s.ledMode = LedMode.blink) (hlvl : s.ledLevel = s.ledMaxLevel) :
    (loop s now).1 = { s with
      ledBlinksDone := (s.ledBlinksDone + 1) % 256
      ledLevel := s.ledMinLevel
      ledDelay := s.ledOffDelay
      ledLastTimeChanged := now % M32 } := by
  rw [loop, if_pos hdue, if_pos hm, if_pos hlvl]
  simp [setLed]

theorem loop_blink_wait_state (s : LedState) (now : Nat)
    (hdue : u32sub now s.ledLastTimeChanged > s.ledDelay)
    (hm : s.ledMode = LedMode.blink) (hlvl : ¬ s.ledLevel = s.ledMaxLevel)
    (hdone : s.ledBlinksDone ≥ s.ledBlinksNeeded) :
    (loop s now).1 = { s with
      ledBlinksDone := 0
      ledLevel := s.ledMinLevel
      ledDelay := s.ledWaitDelay
      ledLastTimeChanged := now % M32 } := by
  rw [loop, if_pos hdue, if_pos hm, if_neg hlvl, if_pos hdone]
  simp [setLed]

theorem loop_blink_next_state (s : LedState) (now : Nat)
    (hdue : u32sub now s.ledLastTimeChanged > s.ledDelay)
    (hm : s.ledMode = LedMode.blink) (hlvl : ¬ s.ledLevel = s.ledMaxLevel)
    (hdone : ¬ s.ledBlinksDone ≥ s.ledBlinksNeeded) :
    (loop s now).1 = { s with
      ledLevel := s.ledMaxLevel
      ledDelay := s.ledOnDelay
      ledLastTimeChanged := now % M32 } := by
  rw [loop, if_pos hdue, if_pos hm, if_neg hlvl, if_neg hdone]
  simp [setLed]

theorem loop_pulse_clampmax_state (s : LedState) (now : Nat)
    (hdue : u32sub now s.ledLastTimeChanged > s.ledDelay)
    (hm : s.ledMode = LedMode.pulse) (hinc : s.ledPulseIncrement > 0)
    (hover : (s.ledLevel : Int) + s.ledPulseIncrement > (s.ledMaxLevel : Int)) :
    (loop s now).1 = { s with
      ledPulseIncrement := -1
      ledLevel := s.ledMaxLevel
      ledDelay := if s.ledIncrease then s.ledOffDelay else s.ledWaitDelay
      ledLastTimeChanged := now % M32 } := by
  rw [loop, if_pos hdue, if_neg (by simp [hm]), if_pos hm]
  dsimp only
  rw [if_pos hinc, if_pos hover]
  cases hI : s.ledIncrease <;> simp [hI, setLed]

theorem loop_pulse_up_state (s : LedState) (now : Nat)
    (hdue : u32sub now s.ledLastTimeChanged > s.ledDelay)
    (hm : s.ledMode = LedMode.pulse) (hinc : s.ledPulseIncrement > 0)
    (hover : ¬ (s.ledLevel : Int) + s.ledPulseIncrement > (s.ledMaxLevel : Int)) :
    (loop s now).1 = { s with
      ledLevel := (((s.ledLevel : Int) + s.ledPulseIncrement) % 256).toNat
      ledDelay := s.ledOnDelay
      ledLastTimeChanged := now % M32 } := by
  rw [loop, if_pos hdue, if_neg (by simp [hm]), if_pos hm]
  dsimp only
  rw [if_pos hinc, if_neg hover]
  simp [setLed]

theorem loop_pulse_clampmin_state (s : LedState) (now : Nat)
    (hdue : u32sub now s.ledLastTimeChanged > s.ledDelay)
    (hm : s.ledMode = LedMode.pulse) (hinc : ¬ s.ledPulseIncrement > 0)
    (hunder : (s.ledLevel : Int) + s.ledPulseIncrement < (s.ledMinLevel : Int)) :
    (loop s now).1 = { s with
      ledPulseIncrement := 1
      ledLevel := s.ledMinLevel
      ledDelay := if s.ledIncrease then s.ledWaitDelay else s.ledOnDelay
      ledLastTimeChanged := now % M32 } := by
  rw [loop, if_pos hdue, if_neg (by simp [hm]), if_pos hm]
  dsimp only
  rw [if_neg hinc, if_pos hunder]
  cases hI : s.ledIncrease <;> simp [hI, setLed]

theorem loop_pulse_down_state (s : LedState) (now : Nat)
    (hdue : u32sub now s.ledLastTimeChanged > s.ledDelay)
    (hm : s.ledMode = LedMode.pulse) (hinc : ¬ s.ledPulseIncrement > 0)
    (hunder : ¬ (s.ledLevel : Int) + s.ledPulseIncrement < (s.ledMinLevel : Int)) :
    (loop s now).1 = { s with
      ledLevel := (((s.ledLevel : Int) + s.ledPulseIncrement) % 256).toNat
      ledDelay := s.ledOffDelay
      ledLastTimeChanged := now % M32 } := by
  rw [loop, if_pos hdue, if_neg (by simp [hm]), if_pos hm]
  dsimp only
  rw [if_neg hinc, if_neg hunder]
  simp [setLed]

theorem loop_fixed_state (s : LedState) (now : Nat)
    (hm : s.ledMode = LedMode.fixed) :
    loop s now = (s, none) := by
  rw [loop]
  split
  · rw [if_neg (by simp [hm]), if_neg (by simp [hm])]
  · rfl

/-- C4: with `reverted = true`, committing `level = 255` performs the hardware
binary-off write (a `digitalWrite` of the off value `ledMinLevel`) and
committing `level = 0` performs the hardware binary-on write (a `digitalWrite`
of the on value `ledMaxLevel`). -/
theorem c4_reverted_polarity (s : LedState) (d now : Nat) (h : s.ledReverted = true) :
    (setLed s 255 d now).2 = HWWrite.digitalWrite s.ledPin s.ledMinLevel ∧
    (setLed s 0 d now).2 = HWWrite.digitalWrite s.ledPin s.ledMaxLevel := by
  simp [setLed, h]

/-- Witness for `c4_reverted_polarity` at a concrete reverted channel. -/
theorem c4_reverted_polarity_witness :
    (mkLed 3 true 0).ledReverted = true ∧
    ((setLed (mkLed 3 true 0) 255 5 7).2 =
        HWWrite.digitalWrite (mkLed 3 true 0).ledPin (mkLed 3 true 0).ledMinLevel ∧
      (setLed (mkLed 3 true 0) 0 5 7).2 =
        HWWrite.digitalWrite (mkLed 3 true 0).ledPin (mkLed 3 true 0).ledMaxLevel) :=
  ⟨rfl, c4_reverted_polarity (mkLed 3 true 0) 5 7 rfl⟩

/-- C6: `begin()` and `setFixed` arm the sentinel delay 4294967295
(`FF_LED_WAIT_FOR_EVER`), and on a state whose armed delay is that sentinel
`loop()` never fires: it performs no hardware write and leaves every state
field unchanged, for every poll time. -/
theorem c6_fixed_never_fires (s : LedState) (lvl now : Nat) (t : LedState)
    (ht : t.ledDelay = 4294967295) (pollTime : Nat) :
    (begin s now).1.ledDelay = 4294967295 ∧
    (setFixed s lvl now).1.ledDelay = 4294967295 ∧
    loop t pollTime = (t, none) := by
  refine ⟨rfl, rfl, ?_⟩
  have hlt : u32sub pollTime t.ledLastTimeChanged < M32 := Nat.mod_lt _ (by norm_num [M32])
  have hM : M32 = 4294967296 := rfl
  rw [loop, if_neg (by omega)]

/-- Witness for `c6_fixed_never_fires` at a concrete state and poll time. -/
theorem c6_fixed_never_fires_witness :
    ({ mkLed 1 false 0 with ledDelay := 4294967295 } : LedState).ledDelay = 4294967295 ∧
    ((begin (mkLed 1 false 0) 3).1.ledDelay = 4294967295 ∧
      (setFixed (mkLed 1 false 0) 9 3).1.ledDelay = 4294967295 ∧
      loop { mkLed 1 false 0 with ledDelay := 4294967295 } 123456789 =
        ({ mkLed 1 false 0 with ledDelay := 4294967295 }, none)) :=
  ⟨rfl, c6_fixed_never_fires (mkLed 1 false 0) 9 3
    { mkLed 1 false 0 with ledDelay := 4294967295 } rfl 123456789⟩

/-- C7: whenever the elapsed time since `ledLastTimeChanged` (computed by
unsigned 32-bit subtraction) does not strictly exceed the armed delay,
`loop()` leaves the whole state and the hardware untouched; in particular a
poll at which the elapsed time exactly equals the delay fires nothing. -/
theorem c7_strict_due_check (s : LedState) (now : Nat)
    (h : u32sub now s.ledLastTimeChanged ≤ s.ledDelay) :
    loop s now = (s, none) := by
  rw [loop, if_neg (by omega)]

/-- Witness for `c7_strict_due_check`: a poll whose elapsed time exactly
equals the armed delay fires no transition. -/
theorem c7_strict_due_check_witness :
    u32sub 5 ({ mkLed 1 false 0 with ledDelay := 5 } : LedState).ledLastTimeChanged ≤
      ({ mkLed 1 false 0 with ledDelay := 5 } : LedState).ledDelay ∧
    loop { mkLed 1 false 0 with ledDelay := 5 } 5 =
      ({ mkLed 1 false 0 with ledDelay := 5 }, none) :=
  ⟨by decide, c7_strict_due_check { mkLed 1 false 0 with ledDelay := 5 } 5 (by decide)⟩

/-- C9: the due check compares timestamps by unsigned 32-bit subtraction, so
for true (unwrapped) arming time `tArm` and poll time `tNow` whose true
elapsed time is at most half the representable range (2^31 = 2147483648),
the computed elapsed value equals the true elapsed time even across clock
wraparound, and the due check decides exactly `true elapsed > delay`. -/
theorem c9_wraparound_safe (tArm tNow : Nat) (s : LedState) (h1 : tArm ≤ tNow)
    (h2 : tNow - tArm ≤ 2147483648) (h3 : s.ledLastTimeChanged = tArm % M32) :
    u32sub tNow s.ledLastTimeChanged = tNow - tArm ∧
    (u32sub tNow s.ledLastTimeChanged > s.ledDelay ↔ tNow - tArm > s.ledDelay) := by
  have key : u32sub tNow s.ledLastTimeChanged = tNow - tArm := by
    rw [h3]
    unfold u32sub M32
    omega
  exact ⟨key, by rw [key]⟩

/-- Witness for `c9_wraparound_safe`: the 32-bit clock wraps between arming
(at raw time 4294967286) and the poll (at raw time 4294967301), yet the
computed elapsed time is the true 15 ms. -/
theorem c9_wraparound_safe_witness :
    4294967286 ≤ 4294967301 ∧ 4294967301 - 4294967286 ≤ 2147483648 ∧
    (u32sub 4294967301
        ({ mkLed 1 false 0 with
            ledLastTimeChanged := 4294967286, ledDelay := 10 } : LedState).ledLastTimeChanged =
      4294967301 - 4294967286 ∧
    (u32sub 4294967301
        ({ mkLed 1 false 0 with
            ledLastTimeChanged := 4294967286, ledDelay := 10 } : LedState).ledLastTimeChanged >
        ({ mkLed 1 false 0 with
            ledLastTimeChanged := 4294967286, ledDelay := 10 } : LedState).ledDelay ↔
      4294967301 - 4294967286 >
        ({ mkLed 1 false 0 with
            ledLastTimeChanged := 4294967286, ledDelay := 10 } : LedState).ledDelay)) :=
  ⟨by decide, by decide,
    c9_wraparound_safe 4294967286 4294967301
      { mkLed 1 false 0 with ledLastTimeChanged := 4294967286, ledDelay := 10 }
      (by decide) (by decide) (by decide)⟩

/-- C10: the binary writes for the extreme levels use the stored
`ledMinLevel` / `ledMaxLevel` values as the written pin state (swapped when
`reverted` is set), so the level-0 write drives the pin low exactly when the
stored minimum is 0; and `setFixed` leaves the stored min/max untouched, so
in Fixed mode these writes still use values left over from an earlier
`setBlink` / `setPulse`. -/
theorem c10_extreme_writes_use_min_max (s : LedState) (d now lvl : Nat) :
    (setLed s 0 d now).2 =
      HWWrite.digitalWrite s.ledPin (if s.ledReverted then s.ledMaxLevel else s.ledMinLevel) ∧
    (setLed s 255 d now).2 =
      HWWrite.digitalWrite s.ledPin (if s.ledReverted then s.ledMinLevel else s.ledMaxLevel) ∧
    (s.ledReverted = false →
      ((setLed s 0 d now).2 = HWWrite.digitalWrite s.ledPin 0 ↔ s.ledMinLevel = 0)) ∧
    (setFixed s lvl now).1.ledMinLevel = s.ledMinLevel ∧
    (setFixed s lvl now).1.ledMaxLevel = s.ledMaxLevel := by
  refine ⟨by simp [setLed], by simp [setLed], ?_, rfl, rfl⟩
  intro hrev
  simp [setLed, hrev]

/-- Witness for `c10_extreme_writes_use_min_max` on a channel whose stored
minimum level is 3 (left over from `setBlink`), non-reverted: the level-0
write drives the pin to 3, not low. -/
theorem c10_extreme_writes_use_min_max_witness :
    (setLed (setBlink (mkLed 4 false 0) 2 100 50 500 3 200 0).1 0 5 7).2 =
      HWWrite.digitalWrite (setBlink (mkLed 4 false 0) 2 100 50 500 3 200 0).1.ledPin
        (if (setBlink (mkLed 4 false 0) 2 100 50 500 3 200 0).1.ledReverted then
          (setBlink (mkLed 4 false 0) 2 100 50 500 3 200 0).1.ledMaxLevel
        else (setBlink (mkLed 4 false 0) 2 100 50 500 3 200 0).1.ledMinLevel) ∧
    ((setBlink (mkLed 4 false 0) 2 100 50 500 3 200 0).1.ledReverted = false →
      ((setLed (setBlink (mkLed 4 false 0) 2 100 50 500 3 200 0).1 0 5 7).2 =
          HWWrite.digitalWrite (setBlink (mkLed 4 false 0) 2 100 50 500 3 200 0).1.ledPin 0 ↔
        (setBlink (mkLed 4 false 0) 2 100 50 500 3 200 0).1.ledMinLevel = 0)) ∧
    (setFixed (setBlink (mkLed 4 false 0) 2 100 50 500 3 200 0).1 9 11).1.ledMinLevel =
      (setBlink (mkLed 4 false 0) 2 100 50 500 3 200 0).1.ledMinLevel :=
  ⟨(c10_extreme_writes_use_min_max (setBlink (mkLed 4 false 0) 2 100 50 500 3 200 0).1 5 7 9).1,
    (c10_extreme_writes_use_min_max (setBlink (mkLed 4 false 0) 2 100 50 500 3 200 0).1 5 7 9).2.2.1,
    (c10_extreme_writes_use_min_max (setBlink (mkLed 4 false 0) 2 100 50 500 3 200 0).1 5 7 9).2.2.2.1⟩

/-- A blink channel parked at its minimum: blink mode with a zero blink
target, level held at `minL` and delay `waitT` re-armed. -/
def BlinkParked (minL maxL waitT : Nat) (s : LedState) : Prop :=
  s.ledMode = LedMode.blink ∧ s.ledBlinksNeeded = 0 ∧ s.ledLevel = minL ∧
  s.ledDelay = waitT ∧ s.ledMinLevel = minL ∧ s.ledMaxLevel = maxL ∧
  s.ledWaitDelay = waitT

/-- C5: `setBlink` with `blinkCount = 0` immediately parks the channel at
`minLevel` with delay `waitTime`; every `loop()` poll (due or not) keeps it
parked at `minLevel` re-arming `waitTime`, and a parked channel's level never
equals `maxLevel`. -/
theorem c5_zero_blink_parks (s : LedState) (onT offT waitT minL maxL now : Nat)
    (hmm : minL < maxL) (hmax : maxL ≤ 255) (hw : waitT < M32)
    (t : LedState) (ht : BlinkParked minL maxL waitT t) (pollTime : Nat) :
    BlinkParked minL maxL waitT (setBlink s 0 onT offT waitT minL maxL now).1 ∧
    BlinkParked minL maxL waitT (loop t pollTime).1 ∧
    t.ledLevel ≠ maxL := by
  obtain ⟨h1, h2, h3, h4, h5, h6, h7⟩ := ht
  refine ⟨?_, ?_, ?_⟩
  · have hmi : minL % 256 = minL := Nat.mod_eq_of_lt (by omega)
    have hma : maxL % 256 = maxL := Nat.mod_eq_of_lt (by omega)
    have hwt : waitT % M32 = waitT := Nat.mod_eq_of_lt hw
    simp [setBlink, setLed, BlinkParked, hmi, hma, hwt]
  · rw [loop]
    by_cases hdue : u32sub pollTime t.ledLastTimeChanged > t.ledDelay
    · rw [if_pos hdue, if_pos h1, if_neg (by rw [h3, h6]; omega)]
      rw [if_pos (by rw [h2]; omega)]
      simp [setLed, BlinkParked, h1, h2, h5, h6, h7]
    · rw [if_neg hdue]
      exact ⟨h1, h2, h3, h4, h5, h6, h7⟩
  · rw [h3]; omega

/-- Witness for `c5_zero_blink_parks` at a concrete zero-count blink. -/
theorem c5_zero_blink_parks_witness :
    BlinkParked 3 200 500 (setBlink (mkLed 4 false 0) 0 100 50 500 3 200 0).1 ∧
    BlinkParked 3 200 500 (loop (setBlink (mkLed 4 false 0) 0 100 50 500 3 200 0).1 501).1 ∧
    (setBlink (mkLed 4 false 0) 0 100 50 500 3 200 0).1.ledLevel ≠ 200 :=
  c5_zero_blink_parks (mkLed 4 false 0) 100 50 500 3 200 0 (by decide) (by decide) (by decide)
    (setBlink (mkLed 4 false 0) 0 100 50 500 3 200 0).1
    (by refine ⟨rfl, rfl, rfl, rfl, rfl, rfl, rfl⟩) 501

/-- The states reachable through the public interface: construction followed
by any sequence of `begin`, `setFixed`, `setBlink`, `setPulse` and `loop`. -/
inductive Reachable : LedState → Prop
  | init (pin : Nat) (rev : Bool) (lvl : Nat) : Reachable (mkLed pin rev lvl)
  | step_begin (s : LedState) (now : Nat) : Reachable s → Reachable (begin s now).1
  | step_setFixed (s : LedState) (lvl now : Nat) : Reachable s →
      Reachable (setFixed s lvl now).1
  | step_setBlink (s : LedState) (c a b w mi ma now : Nat) : Reachable s →
      Reachable (setBlink s c a b w mi ma now).1
  | step_setPulse (s : LedState) (inc : Bool) (u d w mi ma now : Nat) : Reachable s →
      Reachable (setPulse s inc u d w mi ma now).1
  | step_loop (s : LedState) (now : Nat) : Reachable s → Reachable (loop s now).1

/-- Every reachable state keeps `ledLevel`, `ledMinLevel` and `ledMaxLevel`
within the `uint8_t` range. -/
theorem reachable_level_bounds {s : LedState} (h : Reachable s) :
    s.ledLevel ≤ 255 ∧ s.ledMinLevel ≤ 255 ∧ s.ledMaxLevel ≤ 255 := by
  induction h with
  | init pin rev lvl =>
    exact ⟨by simp [mkLed]; omega, by simp [mkLed], by simp [mkLed]⟩
  | step_begin s now _ ih => simpa [begin, setLed] using ih
  | step_setFixed s lvl now _ ih =>
    exact ⟨by simp [setFixed, setLed]; omega, by simpa [setFixed, setLed] using ih.2.1,
      by simpa [setFixed, setLed] using ih.2.2⟩
  | step_setBlink s c a b w mi ma now _ ih =>
    rw [setBlink]
    split <;> simp [setLed] <;> omega
  | step_setPulse s inc u d w mi ma now _ ih =>
    rw [setPulse]
    split <;> simp [setLed] <;> omega
  | step_loop s now _ ih =>
    obtain ⟨hl, hmi, hma⟩ := ih
    by_cases hdue : u32sub now s.ledLastTimeChanged > s.ledDelay
    · cases hmode : s.ledMode with
      | fixed => rw [loop_fixed_state s now hmode]; exact ⟨hl, hmi, hma⟩
      | blink =>
        by_cases hlvl : s.ledLevel = s.ledMaxLevel
        · rw [loop_blink_on_state s now hdue hmode hlvl]; exact ⟨hmi, hmi, hma⟩
        · by_cases hdone : s.ledBlinksDone ≥ s.ledBlinksNeeded
          · rw [loop_blink_wait_state s now hdue hmode hlvl hdone]; exact ⟨hmi, hmi, hma⟩
          · rw [loop_blink_next_state s now hdue hmode hlvl hdone]; exact ⟨hma, hmi, hma⟩
      | pulse =>
        have e1 : (0 : Int) ≤ ((s.ledLevel : Int) + s.ledPulseIncrement) % 256 :=
          Int.emod_nonneg _ (by norm_num)
        have e2 : ((s.ledLevel : Int) + s.ledPulseIncrement) % 256 < 256 :=
          Int.emod_lt_of_pos _ (by norm_num)
        by_cases hinc : s.ledPulseIncrement > 0
        · by_cases hover : (s.ledLevel : Int) + s.ledPulseIncrement > (s.ledMaxLevel : Int)
          · rw [loop_pulse_clampmax_state s now hdue hmode hinc hover]
            exact ⟨hma, hmi, hma⟩
          · rw [loop_pulse_up_state s now hdue hmode hinc hover]
            exact ⟨by simp; omega, hmi, hma⟩
        · by_cases hunder : (s.ledLevel : Int) + s.ledPulseIncrement < (s.ledMinLevel : Int)
          · rw [loop_pulse_clampmin_state s now hdue hmode hinc hunder]
            exact ⟨hmi, hmi, hma⟩
          · rw [loop_pulse_down_state s now hdue hmode hinc hunder]
            exact ⟨by simp; omega, hmi, hma⟩
    · rw [loop_not_due s now hdue]; exact ⟨hl, hmi, hma⟩

/-- C8: level-range invariant.  (1) In every reachable state, `ledLevel` is in
[0, 255].  (2) Whenever the stored `minLevel ≤ maxLevel ≤ 255` and the current
level lies in [minLevel, maxLevel], a `loop()` poll keeps it there.
(3) `setBlink` and (4) `setPulse` with `minLevel ≤ maxLevel` (as truncated to
`uint8_t`) start the level inside [minLevel, maxLevel]. -/
theorem c8_level_range_invariant (s : LedState) (hr : Reachable s)
    (t : LedState) (pollTime : Nat) (htmm : t.ledMinLevel ≤ t.ledMaxLevel)
    (htmax : t.ledMaxLevel ≤ 255) (htlo : t.ledMinLevel ≤ t.ledLevel)
    (hthi : t.ledLevel ≤ t.ledMaxLevel)
    (u : LedState) (c a b w mi ma uT dT wT now : Nat) (inc : Bool)
    (hmima : mi % 256 ≤ ma % 256) :
    s.ledLevel ≤ 255 ∧
    (t.ledMinLevel ≤ (loop t pollTime).1.ledLevel ∧
      (loop t pollTime).1.ledLevel ≤ t.ledMaxLevel) ∧
    ((setBlink u c a b w mi ma now).1.ledMinLevel ≤
        (setBlink u c a b w mi ma now).1.ledLevel ∧
      (setBlink u c a b w mi ma now).1.ledLevel ≤
        (setBlink u c a b w mi ma now).1.ledMaxLevel) ∧
    ((setPulse u inc uT dT wT mi ma now).1.ledMinLevel ≤
        (setPulse u inc uT dT wT mi ma now).1.ledLevel ∧
      (setPulse u inc uT dT wT mi ma now).1.ledLevel ≤
        (setPulse u inc uT dT wT mi ma now).1.ledMaxLevel) := by
  refine ⟨(reachable_level_bounds hr).1, ?_, ?_, ?_⟩
  · by_cases hdue : u32sub pollTime t.ledLastTimeChanged > t.ledDelay
    · cases hmode : t.ledMode with
      | fixed => rw [loop_fixed_state t pollTime hmode]; exact ⟨htlo, hthi⟩
      | blink =>
        by_cases hlvl : t.ledLevel = t.ledMaxLevel
        · rw [loop_blink_on_state t pollTime hdue hmode hlvl]; exact ⟨le_refl _, htmm⟩
        · by_cases hdone : t.ledBlinksDone ≥ t.ledBlinksNeeded
          · rw [loop_blink_wait_state t pollTime hdue hmode hlvl hdone]
            exact ⟨le_refl _, htmm⟩
          · rw [loop_blink_next_state t pollTime hdue hmode hlvl hdone]
            exact ⟨htmm, le_refl _⟩
      | pulse =>
        by_cases hinc : t.ledPulseIncrement > 0
        · by_cases hover : (t.ledLevel : Int) + t.ledPulseIncrement > (t.ledMaxLevel : Int)
          · rw [loop_pulse_clampmax_state t pollTime hdue hmode hinc hover]
            exact ⟨htmm, le_refl _⟩
          · rw [loop_pulse_up_state t pollTime hdue hmode hinc hover]
            rw [Int.not_lt] at hover
            have hnn : (0 : Int) ≤ (t.ledLevel : Int) + t.ledPulseIncrement := by omega
            have hsm : (t.ledLevel : Int) + t.ledPulseIncrement < 256 := by omega
            simp only
            rw [Int.emod_eq_of_lt hnn hsm]
            constructor <;> omega
        · by_cases hunder : (t.ledLevel : Int) + t.ledPulseIncrement < (t.ledMinLevel : Int)
          · rw [loop_pulse_clampmin_state t pollTime hdue hmode hinc hunder]
            exact ⟨le_refl _, htmm⟩
          · rw [loop_pulse_down_state t pollTime hdue hmode hinc hunder]
            rw [Int.not_lt] at hunder
            rw [Int.not_lt] at hinc
            have hnn : (0 : Int) ≤ (t.ledLevel : Int) + t.ledPulseIncrement := by omega
            have hsm : (t.ledLevel : Int) + t.ledPulseIncrement < 256 := by omega
            simp only
            rw [Int.emod_eq_of_lt hnn hsm]
            constructor <;> omega
    · rw [loop_not_due t pollTime hdue]; exact ⟨htlo, hthi⟩
  · rw [setBlink]
    split <;> simp [setLed] <;> omega
  · rw [setPulse]
    split <;> simp [setLed] <;> omega

/-- Witness for `c8_level_range_invariant` at concrete states. -/
theorem c8_level_range_invariant_witness :
    (mkLed 1 false 7).ledLevel ≤ 255 ∧
    ((setPulse (mkLed 1 false 7) true 20 20 1000 2 10 0).1.ledMinLevel ≤
        (loop (setPulse (mkLed 1 false 7) true 20 20 1000 2 10 0).1 21).1.ledLevel ∧
      (loop (setPulse (mkLed 1 false 7) true 20 20 1000 2 10 0).1 21).1.ledLevel ≤
        (setPulse (mkLed 1 false 7) true 20 20 1000 2 10 0).1.ledMaxLevel) ∧
    ((setBlink (mkLed 1 false 7) 2 100 50 500 3 200 0).1.ledMinLevel ≤
        (setBlink (mkLed 1 false 7) 2 100 50 500 3 200 0).1.ledLevel ∧
      (setBlink (mkLed 1 false 7) 2 100 50 500 3 200 0).1.ledLevel ≤
        (setBlink (mkLed 1 false 7) 2 100 50 500 3 200 0).1.ledMaxLevel) ∧
    ((setPulse (mkLed 1 false 7) true 20 20 1000 3 200 0).1.ledMinLevel ≤
        (setPulse (mkLed 1 false 7) true 20 20 1000 3 200 0).1.ledLevel ∧
      (setPulse (mkLed 1 false 7) true 20 20 1000 3 200 0).1.ledLevel ≤
        (setPulse (mkLed 1 false 7) true 20 20 1000 3 200 0).1.ledMaxLevel) :=
  c8_level_range_invariant (mkLed 1 false 7) (Reachable.init 1 false 7)
    (setPulse (mkLed 1 false 7) true 20 20 1000 2 10 0).1 21
    (by decide) (by decide) (by decide) (by decide)
    (mkLed 1 false 7) 2 100 50 500 3 200 20 20 1000 0 true (by decide)

theorem fireState_eq (s : LedState) : fireState s = (loop s (dueTime s)).1 := rfl

theorem ledTrace_zero (s : LedState) : ledTrace s 0 = s := rfl

theorem ledTrace_succ (s : LedState) (n : Nat) :
    ledTrace s (n + 1) = ledTrace (fireState s) n := by
  unfold ledTrace
  exact Function.iterate_succ_apply fireState n s

theorem ledTrace_add (s : LedState) (m n : Nat) :
    ledTrace s (m + n) = ledTrace (ledTrace s m) n := by
  unfold ledTrace
  rw [Nat.add_comm]
  exact Function.iterate_add_apply fireState n m s

theorem commitList_zero (s : LedState) : commitList s 0 = [] := rfl

theorem commitList_succ (s : LedState) (m : Nat) :
    commitList s (m + 1) = (s.ledLevel, s.ledDelay) :: commitList (fireState s) m := by
  unfold commitList
  rw [List.range_succ_eq_map]
  simp only [List.map_cons, List.map_map]
  congr 1

/-- If the state was committed at a genuine clock reading and its armed delay
is below the wrap sentinel, then polling at `dueTime` finds it due. -/
theorem fireState_due (s : LedState) (_hlt : s.ledLastTimeChanged < M32)
    (hdel : s.ledDelay + 1 < M32) :
    u32sub (dueTime s) s.ledLastTimeChanged > s.ledDelay := by
  unfold u32sub dueTime M32 at *
  omega

/-- Invariant carried by a blink channel along its whole run: the immutable
parameter fields and an in-range timestamp. -/
def BlinkInv (n onT offT waitT minL maxL : Nat) (s : LedState) : Prop :=
  s.ledMode = LedMode.blink ∧ s.ledBlinksNeeded = n ∧ s.ledOnDelay = onT ∧
  s.ledOffDelay = offT ∧ s.ledWaitDelay = waitT ∧ s.ledMinLevel = minL ∧
  s.ledMaxLevel = maxL ∧ s.ledLastTimeChanged < M32

theorem blink_fire_on (n onT offT waitT minL maxL : Nat) (s : LedState)
    (hinv : BlinkInv n onT offT waitT minL maxL s) (hlvl : s.ledLevel = maxL)
    (hdel : s.ledDelay + 1 < M32) :
    BlinkInv n onT offT waitT minL maxL (fireState s) ∧
    (fireState s).ledLevel = minL ∧ (fireState s).ledDelay = offT ∧
    (fireState s).ledBlinksDone = (s.ledBlinksDone + 1) % 256 := by
  obtain ⟨hm, hn, ho, hf, hw, hmi, hma, hlt⟩ := hinv
  have hdue := fireState_due s hlt hdel
  have hstep := loop_blink_on_state s (dueTime s) hdue hm (by rw [hlvl, hma])
  rw [fireState_eq, hstep]
  exact ⟨⟨hm, hn, ho, hf, hw, hmi, hma, Nat.mod_lt _ (by norm_num [M32])⟩, hmi, hf, rfl⟩

theorem blink_fire_off_wait (n onT offT waitT minL maxL : Nat) (s : LedState)
    (hinv : BlinkInv n onT offT waitT minL maxL s) (hlvl : s.ledLevel = minL)
    (hne : minL ≠ maxL) (hdel : s.ledDelay + 1 < M32) (hdone : s.ledBlinksDone ≥ n) :
    BlinkInv n onT offT waitT minL maxL (fireState s) ∧
    (fireState s).ledLevel = minL ∧ (fireState s).ledDelay = waitT ∧
    (fireState s).ledBlinksDone = 0 := by
  obtain ⟨hm, hn, ho, hf, hw, hmi, hma, hlt⟩ := hinv
  have hdue := fireState_due s hlt hdel
  have hstep := loop_blink_wait_state s (dueTime s) hdue hm
    (by rw [hlvl, hma]; exact hne) (by rw [hn]; exact hdone)
  rw [fireState_eq, hstep]
  exact ⟨⟨hm, hn, ho, hf, hw, hmi, hma, Nat.mod_lt _ (by norm_num [M32])⟩, hmi, hw, rfl⟩

theorem blink_fire_off_next (n onT offT waitT minL maxL : Nat) (s : LedState)
    (hinv : BlinkInv n onT offT waitT minL maxL s) (hlvl : s.ledLevel = minL)
    (hne : minL ≠ maxL) (hdel : s.ledDelay + 1 < M32) (hdone : s.ledBlinksDone < n) :
    BlinkInv n onT offT waitT minL maxL (fireState s) ∧
    (fireState s).ledLevel = maxL ∧ (fireState s).ledDelay = onT ∧
    (fireState s).ledBlinksDone = s.ledBlinksDone := by
  obtain ⟨hm, hn, ho, hf, hw, hmi, hma, hlt⟩ := hinv
  have hdue := fireState_due s hlt hdel
  have hstep := loop_blink_next_state s (dueTime s) hdue hm
    (by rw [hlvl, hma]; exact hne) (by rw [hn]; omega)
  rw [fireState_eq, hstep]
  exact ⟨⟨hm, hn, ho, hf, hw, hmi, hma, Nat.mod_lt _ (by norm_num [M32])⟩, hma, ho, rfl⟩

/-- The expected commit pattern of one blink cycle with `j` blinks still to
produce: `j` on/off pairs followed by the single inter-sequence pause. -/
def blinkCycleSpec (minL maxL onT offT waitT : Nat) : Nat → List (Nat × Nat)
  | 0 => [(minL, waitT)]
  | j + 1 => (maxL, onT) :: (minL, offT) :: blinkCycleSpec minL maxL onT offT waitT j

/-- Countdown lemma: from an on-state with `j ≥ 1` blinks still to produce
(`blinksDone + j = n`), the next `2*j+1` commits are exactly `j` on/off pairs
and one pause, after which the channel is back in an on-state with a full
cycle ahead. -/
theorem blink_countdown (n onT offT waitT minL maxL : Nat)
    (hmm : minL < maxL) (hn : n ≤ 255)
    (hon : onT + 1 < M32) (hoff : offT + 1 < M32) (hw : waitT + 1 < M32) :
    ∀ j, 1 ≤ j → ∀ s : LedState, BlinkInv n onT offT waitT minL maxL s →
      s.ledLevel = maxL → s.ledDelay = onT → s.ledBlinksDone + j = n →
      commitList s (2 * j + 1) = blinkCycleSpec minL maxL onT offT waitT j ∧
      BlinkInv n onT offT waitT minL maxL (ledTrace s (2 * j + 1)) ∧
      (ledTrace s (2 * j + 1)).ledLevel = maxL ∧
      (ledTrace s (2 * j + 1)).ledDelay = onT ∧
      (ledTrace s (2 * j + 1)).ledBlinksDone = 0 := by
  intro j
  induction j with
  | zero => omega
  | succ j ih =>
    intro _ s hinv hlvl hdel hcount
    have hdone255 : s.ledBlinksDone + 1 ≤ 255 := by omega
    obtain ⟨hinv1, hlvl1, hdel1, hdone1⟩ :=
      blink_fire_on n onT offT waitT minL maxL s hinv hlvl (by omega)
    rw [Nat.mod_eq_of_lt (by omega)] at hdone1
    by_cases hj : j = 0
    · subst hj
      have hge : (fireState s).ledBlinksDone ≥ n := by omega
      obtain ⟨hinv2, hlvl2, hdel2, hdone2⟩ :=
        blink_fire_off_wait n onT offT waitT minL maxL (fireState s) hinv1 hlvl1
          (by omega) (by omega) hge
      have hlt2 : (fireState (fireState s)).ledBlinksDone < n := by omega
      obtain ⟨hinv3, hlvl3, hdel3, hdone3⟩ :=
        blink_fire_off_next n onT offT waitT minL maxL (fireState (fireState s)) hinv2 hlvl2
          (by omega) (by omega) hlt2
      refine ⟨?_, ?_⟩
      · show commitList s (0 + 1 + 1 + 1) = _
        rw [commitList_succ, commitList_succ, commitList_succ, commitList_zero]
        rw [hlvl, hdel, hlvl1, hdel1, hlvl2, hdel2]
        rfl
      · show BlinkInv n onT offT waitT minL maxL (ledTrace s (0 + 1 + 1 + 1)) ∧ _
        rw [ledTrace_succ, ledTrace_succ, ledTrace_succ, ledTrace_zero]
        exact ⟨hinv3, hlvl3, hdel3, hdone3.trans hdone2⟩
    · have hlt1 : (fireState s).ledBlinksDone < n := by omega
      obtain ⟨hinv2, hlvl2, hdel2, hdone2⟩ :=
        blink_fire_off_next n onT offT waitT minL maxL (fireState s) hinv1 hlvl1
          (by omega) (by omega) hlt1
      have hcount2 : (fireState (fireState s)).ledBlinksDone + j = n := by omega
      obtain ⟨hc, hi, hl, hd, hz⟩ := ih (by omega) (fireState (fireState s)) hinv2 hlvl2
        hdel2 hcount2
      have harith : 2 * (j + 1) + 1 = 2 * j + 1 + 1 + 1 := by ring
      refine ⟨?_, ?_⟩
      · rw [harith, commitList_succ, commitList_succ, hc]
        rw [hlvl, hdel, hlvl1, hdel1]
        rfl
      · rw [harith, ledTrace_succ, ledTrace_succ]
        exact ⟨hi, hl, hd, hz⟩

/-- The state right after a `setBlink` call with a nonzero count. -/
theorem setBlink_pos_start (s : LedState) (n onT offT waitT minL maxL now : Nat)
    (hn0 : n ≠ 0) (hn : n ≤ 255) (hmi : minL ≤ 255) (hma : maxL ≤ 255)
    (ho : onT < M32) (hf : offT < M32) (hw : waitT < M32) :
    BlinkInv n onT offT waitT minL maxL (setBlink s n onT offT waitT minL maxL now).1 ∧
    (setBlink s n onT offT waitT minL maxL now).1.ledLevel = maxL ∧
    (setBlink s n onT offT waitT minL maxL now).1.ledDelay = onT ∧
    (setBlink s n onT offT waitT minL maxL now).1.ledBlinksDone = 0 := by
  have h1 : n % 256 = n := Nat.mod_eq_of_lt (by omega)
  have h2 : minL % 256 = minL := Nat.mod_eq_of_lt (by omega)
  have h3 : maxL % 256 = maxL := Nat.mod_eq_of_lt (by omega)
  have h4 : onT % M32 = onT := Nat.mod_eq_of_lt ho
  have h5 : offT % M32 = offT := Nat.mod_eq_of_lt hf
  have h6 : waitT % M32 = waitT := Nat.mod_eq_of_lt hw
  rw [setBlink]
  simp only [h1, h2, h3, h4, h5, h6]
  rw [if_pos (by simpa using hn0)]
  refine ⟨⟨?_, ?_, ?_, ?_, ?_, ?_, ?_, ?_⟩, ?_, ?_, ?_⟩ <;>
    first
      | (simp [setLed, h3, h4]; done)
      | (simp [setLed]; exact Nat.mod_lt _ (by norm_num [M32]))

/-- C2: for every `blinkCount = n ≥ 1` (with `minLevel < maxLevel` and delays
below the wrap sentinel), the trace after `setBlink` is the infinite
repetition of one cycle of `2n+1` commits: exactly `n` on-phases `(maxLevel,
onTime)`, each followed by an off-phase `(minLevel, offTime)`, and then
exactly one pause `(minLevel, waitTime)`; the window starting at every
multiple of `2n+1` shows exactly this pattern. -/
theorem c2_blink_cycle_shape (s : LedState) (n onT offT waitT minL maxL now : Nat)
    (hn1 : 1 ≤ n) (hn : n ≤ 255) (hmm : minL < maxL) (hma : maxL ≤ 255)
    (hon : onT + 1 < M32) (hoff : offT + 1 < M32) (hw : waitT + 1 < M32) (q : Nat) :
    commitList (ledTrace (setBlink s n onT offT waitT minL maxL now).1 (q * (2 * n + 1)))
        (2 * n + 1) =
      blinkCycleSpec minL maxL onT offT waitT n := by
  obtain ⟨hinv0, hlvl0, hdel0, hdone0⟩ := setBlink_pos_start s n onT offT waitT minL maxL now
    (by omega) hn (by omega) hma (by omega) (by omega) (by omega)
  have key : ∀ q : Nat,
      BlinkInv n onT offT waitT minL maxL
        (ledTrace (setBlink s n onT offT waitT minL maxL now).1 (q * (2 * n + 1))) ∧
      (ledTrace (setBlink s n onT offT waitT minL maxL now).1 (q * (2 * n + 1))).ledLevel =
        maxL ∧
      (ledTrace (setBlink s n onT offT waitT minL maxL now).1 (q * (2 * n + 1))).ledDelay =
        onT ∧
      (ledTrace (setBlink s n onT offT waitT minL maxL now).1
          (q * (2 * n + 1))).ledBlinksDone = 0 := by
    intro q
    induction q with
    | zero =>
      rw [Nat.zero_mul, ledTrace_zero]
      exact ⟨hinv0, hlvl0, hdel0, hdone0⟩
    | succ q ihq =>
      obtain ⟨hi, hl, hd, hz⟩ := ihq
      obtain ⟨_, hi2, hl2, hd2, hz2⟩ := blink_countdown n onT offT waitT minL maxL hmm hn
        hon hoff hw n (by omega) _ hi hl hd (by omega)
      have harith : (q + 1) * (2 * n + 1) = q * (2 * n + 1) + (2 * n + 1) := by ring
      rw [harith, ledTrace_add]
      exact ⟨hi2, hl2, hd2, hz2⟩
  obtain ⟨hi, hl, hd, hz⟩ := key q
  exact (blink_countdown n onT offT waitT minL maxL hmm hn hon hoff hw n (by omega) _
    hi hl hd (by omega)).1

/-- Witness for `c2_blink_cycle_shape`: `setBlink(2, 100, 50, 500, 0, 255)`
produces, in its second cycle window, exactly two on/off pairs then one pause. -/
theorem c2_blink_cycle_shape_witness :
    commitList (ledTrace (setBlink (mkLed 1 false 0) 2 100 50 500 0 255 0).1 (1 * (2 * 2 + 1)))
        (2 * 2 + 1) =
      blinkCycleSpec 0 255 100 50 500 2 :=
  c2_blink_cycle_shape (mkLed 1 false 0) 2 100 50 500 0 255 0 (by decide) (by decide)
    (by decide) (by decide) (by decide) (by decide) (by decide) 1

theorem ledTrace_succ_right (s : LedState) (n : Nat) :
    ledTrace s (n + 1) = fireState (ledTrace s n) := by
  unfold ledTrace
  exact Function.iterate_succ_apply' fireState n s

/-- Invariant carried by a pulse channel along its whole run: the immutable
parameter fields and an in-range timestamp. -/
def PulseInv (inc : Bool) (upT dnT wtT minL maxL : Nat) (s : LedState) : Prop :=
  s.ledMode = LedMode.pulse ∧ s.ledIncrease = inc ∧ s.ledOnDelay = upT ∧
  s.ledOffDelay = dnT ∧ s.ledWaitDelay = wtT ∧ s.ledMinLevel = minL ∧
  s.ledMaxLevel = maxL ∧ s.ledLastTimeChanged < M32

theorem pulse_fire_up (inc : Bool) (upT dnT wtT minL maxL : Nat) (s : LedState)
    (hinv : PulseInv inc upT dnT wtT minL maxL s) (hpi : s.ledPulseIncrement = 1)
    (hle : s.ledLevel + 1 ≤ maxL) (hmax : maxL ≤ 255) (hdel : s.ledDelay + 1 < M32) :
    PulseInv inc upT dnT wtT minL maxL (fireState s) ∧
    (fireState s).ledPulseIncrement = 1 ∧
    (fireState s).ledLevel = s.ledLevel + 1 ∧ (fireState s).ledDelay = upT := by
  obtain ⟨hm, hI, hu, hd, hw, hmi, hma, hlt⟩ := hinv
  have hdue := fireState_due s hlt hdel
  have hover : ¬ (s.ledLevel : Int) + s.ledPulseIncrement > (s.ledMaxLevel : Int) := by
    rw [hpi, hma]; omega
  have hstep := loop_pulse_up_state s (dueTime s) hdue hm (by omega) hover
  rw [fireState_eq, hstep]
  refine ⟨⟨hm, hI, hu, hd, hw, hmi, hma, Nat.mod_lt _ (by norm_num [M32])⟩, hpi, ?_, hu⟩
  show (((s.ledLevel : Int) + s.ledPulseIncrement) % 256).toNat = s.ledLevel + 1
  rw [hpi]
  omega

theorem pulse_fire_clampmax (inc : Bool) (upT dnT wtT minL maxL : Nat) (s : LedState)
    (hinv : PulseInv inc upT dnT wtT minL maxL s) (hpi : s.ledPulseIncrement = 1)
    (hlvl : s.ledLevel = maxL) (hdel : s.ledDelay + 1 < M32) :
    PulseInv inc upT dnT wtT minL maxL (fireState s) ∧
    (fireState s).ledPulseIncrement = -1 ∧
    (fireState s).ledLevel = maxL ∧
    (fireState s).ledDelay = (if inc then dnT else wtT) := by
  obtain ⟨hm, hI, hu, hd, hw, hmi, hma, hlt⟩ := hinv
  have hdue := fireState_due s hlt hdel
  have hover : (s.ledLevel : Int) + s.ledPulseIncrement > (s.ledMaxLevel : Int) := by
    rw [hpi, hma, hlvl]; omega
  have hstep := loop_pulse_clampmax_state s (dueTime s) hdue hm (by omega) hover
  rw [fireState_eq, hstep]
  refine ⟨⟨hm, hI, hu, hd, hw, hmi, hma, Nat.mod_lt _ (by norm_num [M32])⟩, rfl, hma, ?_⟩
  show (if s.ledIncrease then s.ledOffDelay else s.ledWaitDelay) = _
  rw [hI, hd, hw]

theorem pulse_fire_down (inc : Bool) (upT dnT wtT minL maxL : Nat) (s : LedState)
    (hinv : PulseInv inc upT dnT wtT minL maxL s) (hpi : s.ledPulseIncrement = -1)
    (hge : minL + 1 ≤ s.ledLevel) (hlvl255 : s.ledLevel ≤ 255)
    (hdel : s.ledDelay + 1 < M32) :
    PulseInv inc upT dnT wtT minL maxL (fireState s) ∧
    (fireState s).ledPulseIncrement = -1 ∧
    (fireState s).ledLevel = s.ledLevel - 1 ∧ (fireState s).ledDelay = dnT := by
  obtain ⟨hm, hI, hu, hd, hw, hmi, hma, hlt⟩ := hinv
  have hdue := fireState_due s hlt hdel
  have hunder : ¬ (s.ledLevel : Int) + s.ledPulseIncrement < (s.ledMinLevel : Int) := by
    rw [hpi, hmi]; omega
  have hstep := loop_pulse_down_state s (dueTime s) hdue hm (by omega) hunder
  rw [fireState_eq, hstep]
  refine ⟨⟨hm, hI, hu, hd, hw, hmi, hma, Nat.mod_lt _ (by norm_num [M32])⟩, hpi, ?_, hd⟩
  show (((s.ledLevel : Int) + s.ledPulseIncrement) % 256).toNat = s.ledLevel - 1
  rw [hpi]
  omega

theorem pulse_fire_clampmin (inc : Bool) (upT dnT wtT minL maxL : Nat) (s : LedState)
    (hinv : PulseInv inc upT dnT wtT minL maxL s) (hpi : s.ledPulseIncrement = -1)
    (hlvl : s.ledLevel = minL) (hdel : s.ledDelay + 1 < M32) :
    PulseInv inc upT dnT wtT minL maxL (fireState s) ∧
    (fireState s).ledPulseIncrement = 1 ∧
    (fireState s).ledLevel = minL ∧
    (fireState s).ledDelay = (if inc then wtT else upT) := by
  obtain ⟨hm, hI, hu, hd, hw, hmi, hma, hlt⟩ := hinv
  have hdue := fireState_due s hlt hdel
  have hunder : (s.ledLevel : Int) + s.ledPulseIncrement < (s.ledMinLevel : Int) := by
    rw [hpi, hmi, hlvl]; omega
  have hstep := loop_pulse_clampmin_state s (dueTime s) hdue hm (by omega) hunder
  rw [fireState_eq, hstep]
  refine ⟨⟨hm, hI, hu, hd, hw, hmi, hma, Nat.mod_lt _ (by norm_num [M32])⟩, rfl, hmi, ?_⟩
  show (if s.ledIncrease then s.ledWaitDelay else s.ledOnDelay) = _
  rw [hI, hw, hu]

/-- Ascending run: while the increment is `+1` and no overshoot occurs, each
ideal poll raises the level by exactly one, re-arming `upTime`. -/
theorem pulse_asc_run (inc : Bool) (upT dnT wtT minL maxL : Nat) (hmax : maxL ≤ 255)
    (hup : upT + 1 < M32) :
    ∀ i, ∀ s : LedState, PulseInv inc upT dnT wtT minL maxL s →
      s.ledPulseIncrement = 1 → s.ledLevel + i ≤ maxL → s.ledDelay + 1 < M32 →
      PulseInv inc upT dnT wtT minL maxL (ledTrace s i) ∧
      (ledTrace s i).ledPulseIncrement = 1 ∧
      (ledTrace s i).ledLevel = s.ledLevel + i ∧
      (ledTrace s i).ledDelay + 1 < M32 := by
  intro i
  induction i with
  | zero =>
    intro s hinv hpi hle hdel
    rw [ledTrace_zero]
    exact ⟨hinv, hpi, rfl, hdel⟩
  | succ i ih =>
    intro s hinv hpi hle hdel
    obtain ⟨hinv1, hpi1, hlvl1, hdel1⟩ :=
      pulse_fire_up inc upT dnT wtT minL maxL s hinv hpi (by omega) hmax hdel
    rw [ledTrace_succ]
    obtain ⟨hi, hp, hl, hd⟩ := ih (fireState s) hinv1 hpi1 (by omega) (by omega)
    exact ⟨hi, hp, by omega, hd⟩

/-- Descending run: while the increment is `-1` and no undershoot occurs, each
ideal poll lowers the level by exactly one, re-arming `downTime`. -/
theorem pulse_desc_run (inc : Bool) (upT dnT wtT minL maxL : Nat) (_hmax : maxL ≤ 255)
    (hdn : dnT + 1 < M32) :
    ∀ j, ∀ s : LedState, PulseInv inc upT dnT wtT minL maxL s →
      s.ledPulseIncrement = -1 → minL + j ≤ s.ledLevel → s.ledLevel ≤ 255 →
      s.ledDelay + 1 < M32 →
      PulseInv inc upT dnT wtT minL maxL (ledTrace s j) ∧
      (ledTrace s j).ledPulseIncrement = -1 ∧
      (ledTrace s j).ledLevel = s.ledLevel - j ∧
      (ledTrace s j).ledDelay + 1 < M32 := by
  intro j
  induction j with
  | zero =>
    intro s hinv hpi hge h255 hdel
    rw [ledTrace_zero]
    exact ⟨hinv, hpi, rfl, hdel⟩
  | succ j ih =>
    intro s hinv hpi hge h255 hdel
    obtain ⟨hinv1, hpi1, hlvl1, hdel1⟩ :=
      pulse_fire_down inc upT dnT wtT minL maxL s hinv hpi (by omega) h255 hdel
    rw [ledTrace_succ]
    obtain ⟨hi, hp, hl, hd⟩ := ih (fireState s) hinv1 hpi1 (by omega) (by omega) (by omega)
    exact ⟨hi, hp, by omega, hd⟩

/-- One full pulse cycle starting from an ascending state at `minLevel`:
the ascending leg enumerates `minLevel, …, maxLevel` (one commit each), the
descending leg (opened by the clamp-at-max commit) enumerates `maxLevel, …,
minLevel` (one commit each), and the cycle closes back in an ascending state
at `minLevel`. -/
theorem pulse_cycle_asc (inc : Bool) (upT dnT wtT minL maxL : Nat)
    (hmm : minL < maxL) (hmax : maxL ≤ 255)
    (hup : upT + 1 < M32) (hdn : dnT + 1 < M32) (hwt : wtT + 1 < M32)
    (s : LedState) (hinv : PulseInv inc upT dnT wtT minL maxL s)
    (hpi : s.ledPulseIncrement = 1) (hlvl : s.ledLevel = minL)
    (hdel : s.ledDelay + 1 < M32) :
    (∀ i, i ≤ maxL - minL → (ledTrace s i).ledLevel = minL + i ∧
      (ledTrace s i).ledPulseIncrement = 1) ∧
    (∀ j, j ≤ maxL - minL → (ledTrace s (maxL - minL + 1 + j)).ledLevel = maxL - j ∧
      (ledTrace s (maxL - minL + 1 + j)).ledPulseIncrement = -1) ∧
    PulseInv inc upT dnT wtT minL maxL (ledTrace s (2 * (maxL - minL) + 2)) ∧
    (ledTrace s (2 * (maxL - minL) + 2)).ledPulseIncrement = 1 ∧
    (ledTrace s (2 * (maxL - minL) + 2)).ledLevel = minL ∧
    (ledTrace s (2 * (maxL - minL) + 2)).ledDelay + 1 < M32 := by
  obtain ⟨hiA, hpA, hlA, hdA⟩ := pulse_asc_run inc upT dnT wtT minL maxL hmax hup
    (maxL - minL) s hinv hpi (by omega) hdel
  rw [hlvl] at hlA
  obtain ⟨hiB, hpB, hlB, hdB⟩ := pulse_fire_clampmax inc upT dnT wtT minL maxL
    (ledTrace s (maxL - minL)) hiA hpA (by omega) hdA
  rw [← ledTrace_succ_right] at hiB hpB hlB hdB
  have hdB' : (ledTrace s (maxL - minL + 1)).ledDelay + 1 < M32 := by
    rw [hdB]; cases inc <;> simp <;> omega
  have descfacts := pulse_desc_run inc upT dnT wtT minL maxL hmax hdn
  have key := fun j (hj : j ≤ maxL - minL) => descfacts j (ledTrace s (maxL - minL + 1))
    hiB hpB (by omega) (by omega) hdB'
  refine ⟨?_, ?_, ?_⟩
  · intro i hi
    obtain ⟨_, hp, hl, _⟩ := pulse_asc_run inc upT dnT wtT minL maxL hmax hup
      i s hinv hpi (by omega) hdel
    rw [hlvl] at hl
    exact ⟨hl, hp⟩
  · intro j hj
    obtain ⟨_, hp, hl, _⟩ := key j hj
    rw [← ledTrace_add] at hp hl
    rw [hlB] at hl
    exact ⟨hl, hp⟩
  · obtain ⟨hi, hp, hl, hd⟩ := key (maxL - minL) (le_refl _)
    rw [← ledTrace_add] at hi hp hl hd
    rw [hlB] at hl
    obtain ⟨hi2, hp2, hl2, hd2⟩ := pulse_fire_clampmin inc upT dnT wtT minL maxL
      (ledTrace s (maxL - minL + 1 + (maxL - minL))) hi hp (by omega) hd
    have harith : 2 * (maxL - minL) + 2 = (maxL - minL + 1 + (maxL - minL)) + 1 := by ring
    rw [harith, ledTrace_succ_right]
    refine ⟨hi2, hp2, hl2, ?_⟩
    rw [hd2]
    cases inc <;> simp <;> omega

/-- One full pulse cycle starting from a descending state at `maxLevel`:
mirror image of `pulse_cycle_asc`. -/
theorem pulse_cycle_desc (inc : Bool) (upT dnT wtT minL maxL : Nat)
    (hmm : minL < maxL) (hmax : maxL ≤ 255)
    (hup : upT + 1 < M32) (hdn : dnT + 1 < M32) (hwt : wtT + 1 < M32)
    (s : LedState) (hinv : PulseInv inc upT dnT wtT minL maxL s)
    (hpi : s.ledPulseIncrement = -1) (hlvl : s.ledLevel = maxL)
    (hdel : s.ledDelay + 1 < M32) :
    (∀ j, j ≤ maxL - minL → (ledTrace s j).ledLevel = maxL - j ∧
      (ledTrace s j).ledPulseIncrement = -1) ∧
    (∀ i, i ≤ maxL - minL → (ledTrace s (maxL - minL + 1 + i)).ledLevel = minL + i ∧
      (ledTrace s (maxL - minL + 1 + i)).ledPulseIncrement = 1) ∧
    PulseInv inc upT dnT wtT minL maxL (ledTrace s (2 * (maxL - minL) + 2)) ∧
    (ledTrace s (2 * (maxL - minL) + 2)).ledPulseIncrement = -1 ∧
    (ledTrace s (2 * (maxL - minL) + 2)).ledLevel = maxL ∧
    (ledTrace s (2 * (maxL - minL) + 2)).ledDelay + 1 < M32 := by
  obtain ⟨hiA, hpA, hlA, hdA⟩ := pulse_desc_run inc upT dnT wtT minL maxL hmax hdn
    (maxL - minL) s hinv hpi (by omega) (by omega) hdel
  rw [hlvl] at hlA
  obtain ⟨hiB, hpB, hlB, hdB⟩ := pulse_fire_clampmin inc upT dnT wtT minL maxL
    (ledTrace s (maxL - minL)) hiA hpA (by omega) hdA
  rw [← ledTrace_succ_right] at hiB hpB hlB hdB
  have hdB' : (ledTrace s (maxL - minL + 1)).ledDelay + 1 < M32 := by
    rw [hdB]; cases inc <;> simp <;> omega
  have key := fun i (hi : i ≤ maxL - minL) => pulse_asc_run inc upT dnT wtT minL maxL
    hmax hup i (ledTrace s (maxL - minL + 1)) hiB hpB (by omega) hdB'
  refine ⟨?_, ?_, ?_⟩
  · intro j hj
    obtain ⟨_, hp, hl, _⟩ := pulse_desc_run inc upT dnT wtT minL maxL hmax hdn
      j s hinv hpi (by omega) (by omega) hdel
    rw [hlvl] at hl
    exact ⟨hl, hp⟩
  · intro i hi
    obtain ⟨_, hp, hl, _⟩ := key i hi
    rw [← ledTrace_add] at hp hl
    rw [hlB] at hl
    exact ⟨hl, hp⟩
  · obtain ⟨hi, hp, hl, hd⟩ := key (maxL - minL) (le_refl _)
    rw [← ledTrace_add] at hi hp hl hd
    rw [hlB] at hl
    obtain ⟨hi2, hp2, hl2, hd2⟩ := pulse_fire_clampmax inc upT dnT wtT minL maxL
      (ledTrace s (maxL - minL + 1 + (maxL - minL))) hi hp (by omega) hd
    have harith : 2 * (maxL - minL) + 2 = (maxL - minL + 1 + (maxL - minL)) + 1 := by ring
    rw [harith, ledTrace_succ_right]
    refine ⟨hi2, hp2, hl2, ?_⟩
    rw [hd2]
    cases inc <;> simp <;> omega

/-- The state right after a `setPulse` call. -/
theorem setPulse_start (s : LedState) (inc : Bool) (upT dnT wtT minL maxL now : Nat)
    (hmi : minL ≤ 255) (hma : maxL ≤ 255) (hu : upT < M32) (hd : dnT < M32)
    (hw : wtT < M32) :
    PulseInv inc upT dnT wtT minL maxL (setPulse s inc upT dnT wtT minL maxL now).1 ∧
    (setPulse s inc upT dnT wtT minL maxL now).1.ledPulseIncrement =
      (if inc then 1 else -1) ∧
    (setPulse s inc upT dnT wtT minL maxL now).1.ledLevel = (if inc then minL else maxL) ∧
    (setPulse s inc upT dnT wtT minL maxL now).1.ledDelay = (if inc then upT else dnT) := by
  have h2 : minL % 256 = minL := Nat.mod_eq_of_lt (by omega)
  have h3 : maxL % 256 = maxL := Nat.mod_eq_of_lt (by omega)
  have h4 : upT % M32 = upT := Nat.mod_eq_of_lt hu
  have h5 : dnT % M32 = dnT := Nat.mod_eq_of_lt hd
  have h6 : wtT % M32 = wtT := Nat.mod_eq_of_lt hw
  cases inc <;>
    simp [setPulse, setLed, PulseInv, h2, h3, h4, h5, h6, Nat.mod_lt _ (by norm_num [M32] : 0 < M32)]

/-- C3: for every pair `minLevel < maxLevel ≤ 255` (and delays below the wrap
sentinel), every sweep of a pulse trace visits every level of
`[minLevel, maxLevel]` exactly once per direction: within each full-cycle
window (of length `2*(maxLevel-minLevel)+2` ideal polls, starting at every
multiple of it), the ascending leg's commits are exactly `minLevel + i` for
`i = 0, …, maxLevel-minLevel` and the descending leg's commits are exactly
`maxLevel - j` for `j = 0, …, maxLevel-minLevel` — whichever leg comes first
being selected by the `increase` flag. -/
theorem c3_pulse_levels_once_per_sweep (s : LedState) (inc : Bool)
    (upT dnT wtT minL maxL now : Nat) (hmm : minL < maxL) (hmax : maxL ≤ 255)
    (hup : upT + 1 < M32) (hdn : dnT + 1 < M32) (hwt : wtT + 1 < M32) (q : Nat) :
    (inc = true →
      (∀ i, i ≤ maxL - minL →
        (ledTrace (setPulse s inc upT dnT wtT minL maxL now).1
          (q * (2 * (maxL - minL) + 2) + i)).ledLevel = minL + i ∧
        (ledTrace (setPulse s inc upT dnT wtT minL maxL now).1
          (q * (2 * (maxL - minL) + 2) + i)).ledPulseIncrement = 1) ∧
      (∀ j, j ≤ maxL - minL →
        (ledTrace (setPulse s inc upT dnT wtT minL maxL now).1
          (q * (2 * (maxL - minL) + 2) + (maxL - minL + 1 + j))).ledLevel = maxL - j ∧
        (ledTrace (setPulse s inc upT dnT wtT minL maxL now).1
          (q * (2 * (maxL - minL) + 2) + (maxL - minL + 1 + j))).ledPulseIncrement = -1)) ∧
    (inc = false →
      (∀ j, j ≤ maxL - minL →
        (ledTrace (setPulse s inc upT dnT wtT minL maxL now).1
          (q * (2 * (maxL - minL) + 2) + j)).ledLevel = maxL - j ∧
        (ledTrace (setPulse s inc upT dnT wtT minL maxL now).1
          (q * (2 * (maxL - minL) + 2) + j)).ledPulseIncrement = -1) ∧
      (∀ i, i ≤ maxL - minL →
        (ledTrace (setPulse s inc upT dnT wtT minL maxL now).1
          (q * (2 * (maxL - minL) + 2) + (maxL - minL + 1 + i))).ledLevel = minL + i ∧
        (ledTrace (setPulse s inc upT dnT wtT minL maxL now).1
          (q * (2 * (maxL - minL) + 2) + (maxL - minL + 1 + i))).ledPulseIncrement = 1)) := by
  obtain ⟨hinv0, hpi0, hlvl0, hdel0⟩ := setPulse_start s inc upT dnT wtT minL maxL now
    (by omega) hmax (by omega) (by omega) (by omega)
  constructor
  · intro hT
    subst hT
    simp at hpi0 hlvl0 hdel0
    have key : ∀ q : Nat,
        PulseInv true upT dnT wtT minL maxL
          (ledTrace (setPulse s true upT dnT wtT minL maxL now).1
            (q * (2 * (maxL - minL) + 2))) ∧
        (ledTrace (setPulse s true upT dnT wtT minL maxL now).1
          (q * (2 * (maxL - minL) + 2))).ledPulseIncrement = 1 ∧
        (ledTrace (setPulse s true upT dnT wtT minL maxL now).1
          (q * (2 * (maxL - minL) + 2))).ledLevel = minL ∧
        (ledTrace (setPulse s true upT dnT wtT minL maxL now).1
          (q * (2 * (maxL - minL) + 2))).ledDelay + 1 < M32 := by
      intro q
      induction q with
      | zero =>
        rw [Nat.zero_mul, ledTrace_zero]
        exact ⟨hinv0, hpi0, hlvl0, by omega⟩
      | succ q ihq =>
        obtain ⟨hi, hp, hl, hd⟩ := ihq
        obtain ⟨_, _, hi2, hp2, hl2, hd2⟩ := pulse_cycle_asc true upT dnT wtT minL maxL
          hmm hmax hup hdn hwt _ hi hp hl hd
        have harith : (q + 1) * (2 * (maxL - minL) + 2) =
            q * (2 * (maxL - minL) + 2) + (2 * (maxL - minL) + 2) := by ring
        rw [harith, ledTrace_add]
        exact ⟨hi2, hp2, hl2, hd2⟩
    obtain ⟨hi, hp, hl, hd⟩ := key q
    obtain ⟨hasc, hdesc, _⟩ := pulse_cycle_asc true upT dnT wtT minL maxL
      hmm hmax hup hdn hwt _ hi hp hl hd
    constructor
    · intro i hile
      rw [ledTrace_add]
      exact hasc i hile
    · intro j hjle
      rw [ledTrace_add]
      exact hdesc j hjle
  · intro hF
    subst hF
    simp at hpi0 hlvl0 hdel0
    have key : ∀ q : Nat,
        PulseInv false upT dnT wtT minL maxL
          (ledTrace (setPulse s false upT dnT wtT minL maxL now).1
            (q * (2 * (maxL - minL) + 2))) ∧
        (ledTrace (setPulse s false upT dnT wtT minL maxL now).1
          (q * (2 * (maxL - minL) + 2))).ledPulseIncrement = -1 ∧
        (ledTrace (setPulse s false upT dnT wtT minL maxL now).1
          (q * (2 * (maxL - minL) + 2))).ledLevel = maxL ∧
        (ledTrace (setPulse s false upT dnT wtT minL maxL now).1
          (q * (2 * (maxL - minL) + 2))).ledDelay + 1 < M32 := by
      intro q
      induction q with
      | zero =>
        rw [Nat.zero_mul, ledTrace_zero]
        exact ⟨hinv0, hpi0, hlvl0, by omega⟩
      | succ q ihq =>
        obtain ⟨hi, hp, hl, hd⟩ := ihq
        obtain ⟨_, _, hi2, hp2, hl2, hd2⟩ := pulse_cycle_desc false upT dnT wtT minL maxL
          hmm hmax hup hdn hwt _ hi hp hl hd
        have harith : (q + 1) * (2 * (maxL - minL) + 2) =
            q * (2 * (maxL - minL) + 2) + (2 * (maxL - minL) + 2) := by ring
        rw [harith, ledTrace_add]
        exact ⟨hi2, hp2, hl2, hd2⟩
    obtain ⟨hi, hp, hl, hd⟩ := key q
    obtain ⟨hdesc, hasc, _⟩ := pulse_cycle_desc false upT dnT wtT minL maxL
      hmm hmax hup hdn hwt _ hi hp hl hd
    constructor
    · intro j hjle
      rw [ledTrace_add]
      exact hdesc j hjle
    · intro i hile
      rw [ledTrace_add]
      exact hasc i hile

/-- Witness for `c3_pulse_levels_once_per_sweep`: in the second cycle of
`setPulse(true, 20, 20, 1000, 0, 10)`, ascending-leg poll 3 sits at level 3
still ascending, and descending-leg poll 4 sits at level 6 descending. -/
theorem c3_pulse_levels_once_per_sweep_witness :
    ((ledTrace (setPulse (mkLed 2 false 0) true 20 20 1000 0 10 0).1
        (1 * (2 * (10 - 0) + 2) + 3)).ledLevel = 0 + 3 ∧
      (ledTrace (setPulse (mkLed 2 false 0) true 20 20 1000 0 10 0).1
        (1 * (2 * (10 - 0) + 2) + 3)).ledPulseIncrement = 1) ∧
    ((ledTrace (setPulse (mkLed 2 false 0) true 20 20 1000 0 10 0).1
        (1 * (2 * (10 - 0) + 2) + (10 - 0 + 1 + 4))).ledLevel = 10 - 4 ∧
      (ledTrace (setPulse (mkLed 2 false 0) true 20 20 1000 0 10 0).1
        (1 * (2 * (10 - 0) + 2) + (10 - 0 + 1 + 4))).ledPulseIncrement = -1) :=
  ⟨((c3_pulse_levels_once_per_sweep (mkLed 2 false 0) true 20 20 1000 0 10 0
      (by decide) (by decide) (by decide) (by decide) (by decide) 1).1 rfl).1 3 (by decide),
    ((c3_pulse_levels_once_per_sweep (mkLed 2 false 0) true 20 20 1000 0 10 0
      (by decide) (by decide) (by decide) (by decide) (by decide) 1).1 rfl).2 4 (by decide)⟩

/-- The concrete scenario channel of the spec: `setPulse(true, 20, 20, 1000,
0, 10)` on a fresh non-reverted LED, at clock 0. -/
def pulseScenario : LedState := (setPulse (mkLed 2 false 0) true 20 20 1000 0 10 0).1

/-- C1 counterexample: in the scenario `setPulse(true, 20, 20, 1000, 0, 10)`
the first twelve commits (the whole ascent 0..10 plus the clamp commit at the
peak) all arm 20 ms — the 1000 ms pause is NOT at the peak — while the
trough-clamp commit at poll 22 arms the 1000 ms pause at level 0. -/
theorem c1_pause_at_peak_counterexample :
    commitList pulseScenario 12 =
      [(0, 20), (1, 20), (2, 20), (3, 20), (4, 20), (5, 20), (6, 20), (7, 20), (8, 20),
        (9, 20), (10, 20), (10, 20)] ∧
    (ledTrace pulseScenario 11).ledDelay ≠ 1000 ∧
    (ledTrace pulseScenario 22).ledLevel = 0 ∧
    (ledTrace pulseScenario 22).ledDelay = 1000 := by
  decide

/-- C1 (amended): at a due poll in pulse mode, when ascending hits the top
(`increment = +1`, `level = maxLevel`) the code clamps at `maxLevel`, flips
to descending, and arms `downTime` if `increase` is true (no pause at the
peak) or `waitTime` if `increase` is false (pause at the peak); symmetrically,
when descending hits the bottom it clamps at `minLevel`, flips to ascending,
and arms `waitTime` if `increase` is true (pause at the trough) or `upTime`
if `increase` is false.  Consequently `setPulse(true, 20, 20, 1000, 0, 10)`
commits 0,1,…,10, re-commits 10 for one more `downTime` slot, descends
9,…,0 with no pause, then holds the 1000 ms pause at the trough before
re-ascending. -/
theorem c1_pulse_reversal_pause_placement (s : LedState) (now : Nat)
    (hdue : u32sub now s.ledLastTimeChanged > s.ledDelay)
    (hm : s.ledMode = LedMode.pulse) :
    (s.ledPulseIncrement = 1 → s.ledLevel = s.ledMaxLevel →
      (loop s now).1.ledLevel = s.ledMaxLevel ∧
      (loop s now).1.ledPulseIncrement = -1 ∧
      (loop s now).1.ledDelay =
        (if s.ledIncrease then s.ledOffDelay else s.ledWaitDelay)) ∧
    (s.ledPulseIncrement = -1 → s.ledLevel = s.ledMinLevel →
      (loop s now).1.ledLevel = s.ledMinLevel ∧
      (loop s now).1.ledPulseIncrement = 1 ∧
      (loop s now).1.ledDelay =
        (if s.ledIncrease then s.ledWaitDelay else s.ledOnDelay)) ∧
    commitList pulseScenario 24 =
      [(0, 20), (1, 20), (2, 20), (3, 20), (4, 20), (5, 20), (6, 20), (7, 20), (8, 20),
        (9, 20), (10, 20), (10, 20), (9, 20), (8, 20), (7, 20), (6, 20), (5, 20), (4, 20),
        (3, 20), (2, 20), (1, 20), (0, 20), (0, 1000), (1, 20)] := by
  refine ⟨?_, ?_, by decide⟩
  · intro hpi hlvl
    have hover : (s.ledLevel : Int) + s.ledPulseIncrement > (s.ledMaxLevel : Int) := by
      rw [hpi, hlvl]; omega
    rw [loop_pulse_clampmax_state s now hdue hm (by omega) hover]
    exact ⟨rfl, rfl, rfl⟩
  · intro hpi hlvl
    have hunder : (s.ledLevel : Int) + s.ledPulseIncrement < (s.ledMinLevel : Int) := by
      rw [hpi, hlvl]; omega
    rw [loop_pulse_clampmin_state s now hdue hm (by omega) hunder]
    exact ⟨rfl, rfl, rfl⟩

/-- Witness for `c1_pulse_reversal_pause_placement`: the clamp at the peak of
the scenario channel (state after 10 ascending polls, at its due time). -/
theorem c1_pulse_reversal_pause_placement_witness :
    u32sub (dueTime (ledTrace pulseScenario 10))
        (ledTrace pulseScenario 10).ledLastTimeChanged >
      (ledTrace pulseScenario 10).ledDelay ∧
    (ledTrace pulseScenario 10).ledMode = LedMode.pulse ∧
    ((ledTrace pulseScenario 10).ledPulseIncrement = 1 →
      (ledTrace pulseScenario 10).ledLevel = (ledTrace pulseScenario 10).ledMaxLevel →
      (loop (ledTrace pulseScenario 10) (dueTime (ledTrace pulseScenario 10))).1.ledLevel =
        (ledTrace pulseScenario 10).ledMaxLevel ∧
      (loop (ledTrace pulseScenario 10)
          (dueTime (ledTrace pulseScenario 10))).1.ledPulseIncrement = -1 ∧
      (loop (ledTrace pulseScenario 10) (dueTime (ledTrace pulseScenario 10))).1.ledDelay =
        (if (ledTrace pulseScenario 10).ledIncrease then
          (ledTrace pulseScenario 10).ledOffDelay
        else (ledTrace pulseScenario 10).ledWaitDelay)) :=
  ⟨by decide, by decide,
    (c1_pulse_reversal_pause_placement (ledTrace pulseScenario 10)
      (dueTime (ledTrace pulseScenario 10)) (by decide) (by decide)).1⟩

end FFLED
